import Mathlib

/-!
Verification of the thin Solana client layer of this repository
(`keypair_manager.py`, `transaction_builder.py`, `token_operations.py`,
`rpc_client.py`) against its design specification.

The Python modules are shallowly embedded: classes become structures,
methods become functions, Python object mutation becomes explicit state
passing, and raised exceptions become `Except` error values.  External
library facilities (the solders types, the base-58 codec, the RPC
transport) are modelled from the specification, which treats them as
opaque collaborators; everything else is translated line by line from
the repository's own source.
-/

namespace RJup

/-- A Solana public key (solders `Pubkey`): 32 raw bytes, modelled as a
list of naturals.  External library value object, modelled from the spec
("a derived public identifier"). -/
structure Pubkey where
  bytes : List Nat
deriving DecidableEq, Repr

/-- A signing keypair (solders `Keypair`): the 64-byte representation,
32 secret-seed bytes followed by the 32 public-key bytes.  External
library value object, modelled from the spec ("holds a private scalar
and a derived public identifier"). -/
structure Keypair where
  bytes64 : List Nat
deriving DecidableEq, Repr

/-- `Keypair.from_bytes` (solders): accepts exactly the 64-byte
secret-plus-public representation, rejecting every other length.
Modelled from the spec ("a fixed-length secret byte sequence", failure
"if ... length mismatches the expected secret size"). -/
def Keypair.from_bytes (bs : List Nat) : Option Keypair :=
  if bs.length = 64 then some ⟨bs⟩ else none

/-- `Keypair.pubkey()` (solders): the public identifier held in the last
32 bytes of the 64-byte representation.  Modelled from the spec (the
public identifier "derived directly from `secret`"). -/
def Keypair.pubkey (kp : Keypair) : Pubkey :=
  ⟨kp.bytes64.drop 32⟩

/-- `bytes(keypair)` (solders): the raw 64-byte secret representation. -/
def Keypair.to_bytes (kp : Keypair) : List Nat :=
  kp.bytes64

/-- A recent-blockhash value (solders `Hash`); opaque freshness token. -/
structure Hash where
  value : Nat
deriving DecidableEq, Repr

/-- Account metadata inside an instruction (solders `AccountMeta`). -/
structure AccountMeta where
  pubkey : Pubkey
  is_signer : Bool
  is_writable : Bool
deriving DecidableEq, Repr

/-- An instruction (solders `Instruction`): target program, ordered
account references, opaque data payload.  Immutable value object. -/
structure Instruction where
  program_id : Pubkey
  accounts : List AccountMeta
  data : List Nat
deriving DecidableEq, Repr

/-- The well-known system program id (all-zero key). -/
def SYSTEM_PROGRAM_ID : Pubkey := ⟨List.replicate 32 0⟩

/-- Little-endian 8-byte encoding of a lamport amount. -/
def natToLe64 (n : Nat) : List Nat :=
  (List.range 8).map (fun i => n / 256 ^ i % 256)

/-- Parameters of a system transfer (solders `TransferParams`). -/
structure TransferParams where
  from_pubkey : Pubkey
  to_pubkey : Pubkey
  lamports : Nat
deriving DecidableEq, Repr

/-- `solders.system_program.transfer`: builds the well-known system
transfer instruction.  External library helper, modelled from the spec
("constructs and appends a system-transfer instruction"): source signs
and is writable, destination is writable, data is the transfer tag
followed by the little-endian lamport amount. -/
def transfer (params : TransferParams) : Instruction :=
  { program_id := SYSTEM_PROGRAM_ID
    accounts := [⟨params.from_pubkey, true, true⟩, ⟨params.to_pubkey, false, true⟩]
    data := [2, 0, 0, 0] ++ natToLe64 params.lamports }

/-- A transaction message (solders `Message.new_with_blockhash` result):
the ordered instruction sequence, the fee payer and the embedded
freshness token.  External library value, modelled from the spec
("an ordered, non-empty sequence of Instructions plus a fee-payer
Identity reference and a Freshness Token"). -/
structure Message where
  instructions : List Instruction
  payer : Pubkey
  recent_blockhash : Hash
deriving DecidableEq, Repr

/-- `Message.new_with_blockhash` (solders). -/
def Message.new_with_blockhash (instructions : List Instruction)
    (payer : Pubkey) (recent_blockhash : Hash) : Message :=
  ⟨instructions, payer, recent_blockhash⟩

/-- A transaction (solders `Transaction`): the message plus the set of
keypairs it has been signed with (empty while unsigned).  Modelled from
the spec ("the Pending Transaction's message bytes plus one signature
per required signer"); the signer list records exactly the signing set
handed to `Transaction.sign`. -/
structure Transaction where
  message : Message
  signers : List Keypair
deriving DecidableEq, Repr

/-- `Transaction.new_unsigned` (solders). -/
def Transaction.new_unsigned (message : Message) : Transaction :=
  ⟨message, []⟩

/-- `Transaction.sign` (solders): records the signing set over the
frozen message; a pure function of message and signers. -/
def Transaction.sign (tx : Transaction) (signers : List Keypair) : Transaction :=
  { tx with signers := signers }

/-- The response of `client.get_latest_blockhash()` as read by
`TransactionBuilder.build` (`response.value.blockhash`). -/
structure LatestBlockhashValue where
  blockhash : Hash
deriving DecidableEq, Repr

structure LatestBlockhashResp where
  value : LatestBlockhashValue
deriving DecidableEq, Repr

/-- The RPC client as seen by the transaction builder: the one operation
`build` invokes.  External `solana.rpc.api.Client`, modelled from the
spec ("fetches one from the RPC Gateway"). -/
structure Client where
  get_latest_blockhash : LatestBlockhashResp
deriving DecidableEq, Repr

/-- Errors of `TransactionBuilder` (`ValueError` raise sites). -/
inductive BuildError where
  | emptyTransaction
deriving DecidableEq, Repr

/-- `TransactionBuilder` state: `self.client`, `self.payer`,
`self.instructions` (`transaction_builder.py`, `__init__`). -/
structure TransactionBuilder where
  client : Client
  payer : Keypair
  instructions : List Instruction
deriving DecidableEq, Repr

/-- `TransactionBuilder.__init__`: starts with an empty instruction
list. -/
def TransactionBuilder.init (client : Client) (payer : Keypair) : TransactionBuilder :=
  ⟨client, payer, []⟩

/-- `TransactionBuilder.add_instruction`: appends and returns self. -/
def TransactionBuilder.add_instruction (b : TransactionBuilder)
    (instruction : Instruction) : TransactionBuilder :=
  { b with instructions := b.instructions ++ [instruction] }

/-- `TransactionBuilder.add_transfer`: constructs the system-transfer
instruction and appends it via `add_instruction`. -/
def TransactionBuilder.add_transfer (b : TransactionBuilder)
    (from_pubkey to_pubkey : Pubkey) (lamports : Nat) : TransactionBuilder :=
  b.add_instruction (transfer ⟨from_pubkey, to_pubkey, lamports⟩)

/-- `TransactionBuilder.add_custom_instruction`. -/
def TransactionBuilder.add_custom_instruction (b : TransactionBuilder)
    (program_id : Pubkey) (accounts : List AccountMeta) (data : List Nat) :
    TransactionBuilder :=
  b.add_instruction ⟨program_id, accounts, data⟩

/-- `TransactionBuilder.reset`: clears the instruction list. -/
def TransactionBuilder.reset (b : TransactionBuilder) : TransactionBuilder :=
  { b with instructions := [] }

/-- `TransactionBuilder.build`: raises (returns) `EmptyTransaction` when
no instructions were added; otherwise uses the supplied recent
blockhash, or fetches one from the client when absent, and produces the
unsigned transaction.  The method assigns to no field of `self`, so the
post-state (second component) is the unchanged builder. -/
def TransactionBuilder.build (b : TransactionBuilder)
    (recent_blockhash : Option Hash := none) :
    Except BuildError Transaction × TransactionBuilder :=
  if b.instructions = [] then
    (.error .emptyTransaction, b)
  else
    let rbh := match recent_blockhash with
      | none => b.client.get_latest_blockhash.value.blockhash
      | some h => h
    let message := Message.new_with_blockhash b.instructions b.payer.pubkey rbh
    (.ok (Transaction.new_unsigned message), b)

/-- `TransactionBuilder.build_and_sign`: builds the unsigned transaction
then resolves the signer list exactly as the source does — `None`
becomes `[self.payer]`, a list missing the payer gets the payer
prepended, any other list is used as given — and signs.  Assigns to no
field of `self`. -/
def TransactionBuilder.build_and_sign (b : TransactionBuilder)
    (signers : Option (List Keypair) := none)
    (recent_blockhash : Option Hash := none) :
    Except BuildError Transaction × TransactionBuilder :=
  match b.build recent_blockhash with
  | (.error e, b') => (.error e, b')
  | (.ok transaction, b') =>
    let signers' := match signers with
      | none => [b'.payer]
      | some ss => if b'.payer ∈ ss then ss else b'.payer :: ss
    (.ok (transaction.sign signers'), b')

/-- `TransactionBuilder.get_instruction_count`. -/
def TransactionBuilder.get_instruction_count (b : TransactionBuilder) : Nat :=
  b.instructions.length

/-!
## Base-58 codec

Modelled from the spec: the repository delegates "base-58 text encoding"
to the external `base58` library (`b58encode` / `b58decode`), which uses
the Bitcoin alphabet, strips leading zero bytes, encodes the remainder
as a big-endian base-58 numeral and pads with one alphabet-zero
character per stripped byte.  Text is modelled as the list of ASCII
codes.
-/

/-- The Bitcoin base-58 alphabet
`123456789ABCDEFGHJKLMNPQRSTUVWXYZabcdefghijkmnopqrstuvwxyz`
as ASCII codes. -/
def B58_ALPHABET : List Nat :=
  [49, 50, 51, 52, 53, 54, 55, 56, 57,
   65, 66, 67, 68, 69, 70, 71, 72, 74, 75, 76, 77, 78,
   80, 81, 82, 83, 84, 85, 86, 87, 88, 89, 90,
   97, 98, 99, 100, 101, 102, 103, 104, 105, 106, 107,
   109, 110, 111, 112, 113, 114, 115, 116, 117, 118, 119, 120, 121, 122]

/-- Alphabet character for one base-58 digit value. -/
def b58char (d : Nat) : Nat :=
  B58_ALPHABET.getD d 0

/-- Big-endian positional value of a digit list (`int.from_bytes` for
base 256; the running accumulator of `b58decode_int` for base 58). -/
def ofDigitsBE (b : Nat) (ds : List Nat) : Nat :=
  ds.foldl (fun acc d => acc * b + d) 0

/-- Little-endian base-`b` digit expansion, fuel-bounded so that the
recursion is structural (the digit loops of `b58encode_int` and the
byte loop of `b58decode`); `n` itself always suffices as fuel. -/
def digitsFuel (b : Nat) : Nat → Nat → List Nat
  | 0, _ => []
  | fuel + 1, n => if n = 0 then [] else n % b :: digitsFuel b fuel (n / b)

/-- Little-endian base-`b` digits of `n`; agrees with `Nat.digits` for
every base `b ≥ 2` (`digitsLE_eq_digits`). -/
def digitsLE (b n : Nat) : List Nat :=
  digitsFuel b n n

/-- `base58.b58encode`: count the leading zero bytes, read the whole
input as a big-endian integer (the stripped prefix contributes nothing),
write that integer in base-58 digits mapped through the alphabet, and
prefix one alphabet-zero character per leading zero byte. -/
def b58encode (v : List Nat) : List Nat :=
  let pad := (v.takeWhile (· == 0)).length
  List.replicate pad (b58char 0) ++ (digitsLE 58 (ofDigitsBE 256 v)).reverse.map b58char

/-- `base58.b58decode_int`: left fold `decimal = decimal * 58 + index`,
failing on any character outside the alphabet. -/
def b58decodeInt : List Nat → Nat → Option Nat
  | [], acc => some acc
  | c :: cs, acc =>
    if c ∈ B58_ALPHABET then b58decodeInt cs (acc * 58 + B58_ALPHABET.indexOf c)
    else none

/-- `base58.b58decode`: strip leading alphabet-zero characters, decode
the remainder as a base-58 integer, emit its big-endian bytes prefixed
by one zero byte per stripped character; `none` models the `ValueError`
raised on a character outside the alphabet. -/
def b58decode (v : List Nat) : Option (List Nat) :=
  let pad := (v.takeWhile (· == b58char 0)).length
  match b58decodeInt (v.drop pad) 0 with
  | none => none
  | some acc => some (List.replicate pad 0 ++ (digitsLE 256 acc).reverse)

/-!
## Key manager (`keypair_manager.py`)
-/

/-- The error kinds raised by `KeypairManager` (`ValueError` /
`NotImplementedError` raise sites, named as in the spec's taxonomy). -/
inductive KMError where
  | missingCredential
  | invalidKeyFormat
  | unimplemented
deriving DecidableEq, Repr

/-- `KeypairManager` state: the loaded keypair. -/
structure KeypairManager where
  keypair : Keypair
deriving DecidableEq, Repr

/-- `KeypairManager._load_keypair`: base-58 decode the text, then
`Keypair.from_bytes`; any failure of either step is caught and re-raised
as the invalid-key-format `ValueError`. -/
def load_keypair (private_key : List Nat) : Except KMError Keypair :=
  match b58decode private_key with
  | none => .error .invalidKeyFormat
  | some secret_key =>
    match Keypair.from_bytes secret_key with
    | none => .error .invalidKeyFormat
    | some kp => .ok kp

/-- `KeypairManager.__init__`: a pre-built keypair is used directly; an
explicit private-key text is loaded; otherwise the
`WALLET_PRIVATE_KEY` environment variable is consulted, where both an
unset variable and an empty string (`if not private_key`) raise the
missing-credential `ValueError`.  `env_private_key` is the value of the
environment variable at call time. -/
def initKeypairManager (private_key : Option (List Nat))
    (keypair : Option Keypair) (env_private_key : Option (List Nat)) :
    Except KMError KeypairManager :=
  match keypair with
  | some kp => .ok ⟨kp⟩
  | none =>
    match private_key with
    | some pk => (load_keypair pk).map KeypairManager.mk
    | none =>
      match env_private_key with
      | none => .error .missingCredential
      | some pk =>
        if pk = [] then .error .missingCredential
        else (load_keypair pk).map KeypairManager.mk

/-- `KeypairManager.get_public_key`. -/
def KeypairManager.get_public_key (km : KeypairManager) : Pubkey :=
  km.keypair.pubkey

/-- `KeypairManager.get_private_key_bytes`. -/
def KeypairManager.get_private_key_bytes (km : KeypairManager) : List Nat :=
  km.keypair.to_bytes

/-- `KeypairManager.get_private_key_base58`: base-58 encoding of
`bytes(self.keypair)`. -/
def KeypairManager.get_private_key_base58 (km : KeypairManager) : List Nat :=
  b58encode km.keypair.to_bytes

/-- `KeypairManager.verify_signature`: unconditionally raises
`NotImplementedError`; the boolean is never produced. -/
def KeypairManager.verify_signature (pubkey : Pubkey) (message : List Nat)
    (signature : List Nat) : Except KMError Bool :=
  .error .unimplemented

/-!
## Token operations (`token_operations.py`)
-/

/-- The well-known SPL token program id (`spl.token.constants`).
External constant, modelled from the spec as an opaque distinguished
program identifier. -/
def TOKEN_PROGRAM_ID : Pubkey := ⟨List.replicate 32 6⟩

/-- The slice of an account record that `verify_token_account` reads
(`response.value` of `client.get_account_info`). -/
structure AccountInfo where
  owner : Pubkey
  lamports : Nat
  executable : Bool
deriving DecidableEq, Repr

/-- An account lookup as `verify_token_account` performs it: the
underlying `client.get_account_info` call either raises (some
exception, carried as text) or returns the optional account record,
`none` when the account does not exist. -/
def AccountLookup : Type :=
  Pubkey → Except String (Option AccountInfo)

/-- `TokenOperations.verify_token_account`: queries the account; an
absent account or one not owned by the token program yields `false`,
and the `try/except Exception` wrapper converts every lookup failure
into `false` as well. -/
def verify_token_account (get_account_info : AccountLookup)
    (account : Pubkey) : Bool :=
  match get_account_info account with
  | .error _ => false
  | .ok none => false
  | .ok (some account_info) => account_info.owner = TOKEN_PROGRAM_ID

/-!
## RPC client (`rpc_client.py`)
-/

/-- One entry of the signature-status list returned by the node; the
`status` field queried by `confirm_transaction`, `none` marking
success ("None status means success"). -/
structure TransactionStatus where
  status : Option String
deriving DecidableEq, Repr

/-- The response of the underlying `client.confirm_transaction` call:
its `value` is the per-signature status list. -/
structure ConfirmResp where
  value : List TransactionStatus
deriving DecidableEq, Repr

/-- `SolanaRPCClient.confirm_transaction`: issues exactly one query to
the underlying client — modelled by consuming exactly the head of the
node's pending-response queue — and returns
`response.value[0].status is None`.  The result is `none` when no
response arrives or `value` is empty (the Python `IndexError` path);
otherwise it pairs the boolean with the untouched remainder of the
queue, witnessing that no second query is made. -/
def confirm_transaction (pending : List ConfirmResp) (signature : Nat)
    (commitment : String := "confirmed") :
    Option (Bool × List ConfirmResp) :=
  match pending with
  | [] => none
  | response :: rest =>
    match response.value with
    | [] => none
    | s :: _ => some (s.status.isNone, rest)

/-!
## Base-58 round-trip lemmas
-/

theorem digitsFuel_eq_digits (b : Nat) (hb : 1 < b) :
    ∀ fuel n : Nat, n ≤ fuel → digitsFuel b fuel n = Nat.digits b n := by
  intro fuel
  induction fuel with
  | zero =>
    intro n hn
    have : n = 0 := Nat.le_zero.mp hn
    subst this
    simp [digitsFuel]
  | succ f ih =>
    intro n hn
    by_cases h0 : n = 0
    · subst h0
      simp [digitsFuel]
    · have hpos : 0 < n := Nat.pos_of_ne_zero h0
      have hlt : n / b < n := Nat.div_lt_self hpos hb
      rw [digitsFuel, if_neg h0, ih (n / b) (by omega),
        ← Nat.digits_def' hb hpos]

theorem digitsLE_eq_digits (b : Nat) (hb : 1 < b) (n : Nat) :
    digitsLE b n = Nat.digits b n :=
  digitsFuel_eq_digits b hb n n le_rfl

theorem foldl_mul_add_replicate_zero (b : Nat) :
    ∀ z : Nat, (List.replicate z 0).foldl (fun acc d => acc * b + d) 0 = 0 := by
  intro z
  induction z with
  | zero => rfl
  | succ n ih => simpa [List.replicate_succ] using ih

theorem ofDigitsBE_append_replicate_zero (b z : Nat) (rest : List Nat) :
    ofDigitsBE b (List.replicate z 0 ++ rest) = ofDigitsBE b rest := by
  unfold ofDigitsBE
  rw [List.foldl_append, foldl_mul_add_replicate_zero]

theorem ofDigitsBE_reverse (b : Nat) (L : List Nat) :
    ofDigitsBE b L.reverse = Nat.ofDigits b L := by
  induction L with
  | nil => rfl
  | cons d L ih =>
    unfold ofDigitsBE at *
    rw [List.reverse_cons, List.foldl_append, ih]
    simp [Nat.ofDigits_cons]
    ring

theorem takeWhile_append_of_all {p : Nat → Bool} {xs : List Nat}
    (h : ∀ x ∈ xs, p x = true) (ys : List Nat) :
    (xs ++ ys).takeWhile p = xs ++ ys.takeWhile p := by
  induction xs with
  | nil => simp
  | cons a l ih =>
    have ha : p a = true := h a (by simp)
    simp only [List.cons_append, List.takeWhile_cons, ha, if_true]
    rw [ih (fun x hx => h x (by simp [hx]))]

theorem head?_dropWhile_false (p : Nat → Bool) :
    ∀ (l : List Nat) (x : Nat), (l.dropWhile p).head? = some x → p x = false := by
  intro l
  induction l with
  | nil => intro x hx; simp at hx
  | cons a l ih =>
    intro x hx
    rw [List.dropWhile_cons] at hx
    by_cases ha : p a = true
    · rw [if_pos ha] at hx
      exact ih x hx
    · rw [if_neg ha] at hx
      simp at hx
      subst hx
      simpa using ha

theorem b58char_zero : b58char 0 = 49 := rfl

theorem b58char_mem_alphabet : ∀ d < 58, b58char d ∈ B58_ALPHABET := by decide

theorem indexOf_b58char : ∀ d < 58, B58_ALPHABET.indexOf (b58char d) = d := by decide

theorem b58char_ne_49 : ∀ d < 58, d ≠ 0 → b58char d ≠ 49 := by decide

theorem b58decodeInt_map (ds : List Nat) (h : ∀ d ∈ ds, d < 58) : ∀ acc,
    b58decodeInt (ds.map b58char) acc =
      some (ds.foldl (fun a d => a * 58 + d) acc) := by
  induction ds with
  | nil => intro acc; rfl
  | cons c cs ih =>
    intro acc
    have hc : c < 58 := h c (by simp)
    have hmem : b58char c ∈ B58_ALPHABET := b58char_mem_alphabet c hc
    have hidx : B58_ALPHABET.indexOf (b58char c) = c := indexOf_b58char c hc
    simp only [List.map_cons, b58decodeInt, if_pos hmem, hidx]
    exact ih (fun d hd => h d (by simp [hd])) _

/-- Round-trip of the external base-58 codec: decoding an encoding
recovers every byte list, leading zero bytes included. -/
theorem b58decode_b58encode (bs : List Nat) (h : ∀ x ∈ bs, x < 256) :
    b58decode (b58encode bs) = some bs := by
  have htake : bs.takeWhile (· == 0) = List.replicate (bs.takeWhile (· == 0)).length 0 := by
    rw [List.eq_replicate_iff]
    refine ⟨rfl, fun b hb => ?_⟩
    have := List.mem_takeWhile_imp hb
    simpa using this
  set z := (bs.takeWhile (· == 0)).length with hzdef
  set rest := bs.dropWhile (· == 0) with hrestdef
  have hsplit : List.replicate z 0 ++ rest = bs := by
    rw [← htake, hrestdef]
    exact List.takeWhile_append_dropWhile _ _
  set N := ofDigitsBE 256 bs with hNdef
  have hN2 : N = Nat.ofDigits 256 rest.reverse := by
    have h1 : N = ofDigitsBE 256 rest := by
      rw [hNdef, ← hsplit, ofDigitsBE_append_replicate_zero]
    have h2 := ofDigitsBE_reverse 256 rest.reverse
    rw [List.reverse_reverse] at h2
    rw [h1, ← h2]
  have hrest_lt : ∀ l ∈ rest.reverse, l < 256 := by
    intro l hl
    rw [List.mem_reverse] at hl
    exact h l (List.dropWhile_sublist (p := (· == 0)) |>.mem hl)
  have hrest_last : ∀ (hne : rest.reverse ≠ []), rest.reverse.getLast hne ≠ 0 := by
    intro hne
    have hr : rest ≠ [] := by simpa using hne
    have hhead : rest.head? = some (rest.reverse.getLast hne) := by
      rw [← List.getLast?_reverse, List.getLast?_eq_getLast _ hne]
    have := head?_dropWhile_false (· == 0) bs _ (by rw [← hrestdef]; exact hhead)
    simpa using this
  have hd256 : Nat.digits 256 N = rest.reverse := by
    rw [hN2]
    exact Nat.digits_ofDigits 256 (by norm_num) rest.reverse hrest_lt hrest_last
  have hrep49 : ∀ x ∈ List.replicate z (49 : Nat), (x == 49) = true := by
    intro x hx
    have := List.eq_of_mem_replicate hx
    simp [this]
  have hencode : b58encode bs =
      List.replicate z 49 ++ (Nat.digits 58 N).reverse.map b58char := by
    simp only [b58encode, b58char_zero, ← hzdef, ← hNdef,
      digitsLE_eq_digits 58 (by norm_num)]
  rcases hrds : (Nat.digits 58 N).reverse with _ | ⟨d, ds⟩
  · -- no base-58 digits: the value is zero, all bytes were leading zeros
    have hdig : Nat.digits 58 N = [] := by
      have := congrArg List.reverse hrds
      simpa using this
    have hN0 : N = 0 := by
      by_contra hN0
      exact (Nat.digits_ne_nil_iff_ne_zero.mpr hN0) hdig
    have hrestnil : rest = [] := by
      have h0 : ([] : List Nat) = rest.reverse := by
        rw [← hd256, hN0, Nat.digits_zero]
      simpa using h0.symm
    have hbs : bs = List.replicate z 0 := by rw [← hsplit, hrestnil, List.append_nil]
    rw [hencode, hrds]
    simp only [List.map_nil, List.append_nil, b58decode, b58char_zero]
    rw [List.takeWhile_eq_self_iff.mpr hrep49]
    rw [List.length_replicate, List.drop_replicate]
    simp only [Nat.sub_self, List.replicate_zero, b58decodeInt]
    simp [hbs, digitsLE_eq_digits 256 (by norm_num), Nat.digits_zero]
  · -- at least one digit: the leading digit is nonzero, so padding stops there
    have hd_mem : d ∈ Nat.digits 58 N := by
      have : d ∈ (Nat.digits 58 N).reverse := by rw [hrds]; simp
      simpa using this
    have hd_lt : d < 58 := Nat.digits_lt_base (by norm_num) hd_mem
    have hdig_ne : Nat.digits 58 N ≠ [] := by
      intro hc
      rw [hc] at hrds
      simp at hrds
    have hN0 : N ≠ 0 := Nat.digits_ne_nil_iff_ne_zero.mp hdig_ne
    have hd_ne : d ≠ 0 := by
      have hlast := Nat.getLast_digit_ne_zero 58 hN0
      have h1 : (Nat.digits 58 N).getLast?
          = ((Nat.digits 58 N).reverse).head? := (List.head?_reverse _).symm
      rw [hrds] at h1
      simp only [List.head?_cons] at h1
      rw [List.getLast?_eq_getLast _ hdig_ne] at h1
      have := h1.symm
      rw [Option.some_inj] at this
      rw [← this] at hlast
      exact fun hcc => hlast (by simpa using hcc)
    have hchar_ne : (b58char d == 49) = false := by
      simpa using b58char_ne_49 d hd_lt hd_ne
    have hall_lt : ∀ x ∈ d :: ds, x < 58 := by
      intro x hx
      have : x ∈ (Nat.digits 58 N).reverse := by rw [hrds]; exact hx
      exact Nat.digits_lt_base (by norm_num) (by simpa using this)
    rw [hencode, hrds]
    simp only [List.map_cons, b58decode, b58char_zero]
    rw [takeWhile_append_of_all hrep49, List.takeWhile_cons, hchar_ne]
    simp only [Bool.false_eq_true, if_false, List.append_nil, List.length_replicate]
    have hdrop : (List.replicate z 49 ++ b58char d :: ds.map b58char).drop z
        = b58char d :: ds.map b58char := by
      have := List.drop_left (List.replicate z (49 : Nat)) (b58char d :: ds.map b58char)
      rwa [List.length_replicate] at this
    rw [hdrop]
    have hdec := b58decodeInt_map (d :: ds) hall_lt 0
    rw [List.map_cons] at hdec
    rw [hdec]
    have hfold : (d :: ds).foldl (fun a x => a * 58 + x) 0 = N := by
      have h1 := ofDigitsBE_reverse 58 (Nat.digits 58 N)
      rw [hrds] at h1
      rw [Nat.ofDigits_digits] at h1
      exact h1
    rw [hfold]
    show some (List.replicate z 0 ++ (digitsLE 256 N).reverse) = some bs
    rw [digitsLE_eq_digits 256 (by norm_num), hd256]
    simp [← hsplit]

/-!
## Claim theorems
-/

/-- C1: `buildAndSign` always includes the fee-payer `Identity` in the
signer set used to sign: with no explicit list the payer is the sole
signer; with an explicit list (the empty list included) missing the
payer, the payer is prepended; a list already containing the payer —
in particular one listing it twice — is used exactly as given, so
duplicates are not deduplicated. -/
theorem buildAndSign_includes_payer (b : TransactionBuilder)
    (signers : Option (List Keypair)) (recent_blockhash : Option Hash)
    (h : b.instructions ≠ []) :
    ∃ tx : Transaction,
      (b.build_and_sign signers recent_blockhash).1 = .ok tx ∧
      tx.signers = (match signers with
        | none => [b.payer]
        | some ss => if b.payer ∈ ss then ss else b.payer :: ss) ∧
      b.payer ∈ tx.signers := by
  unfold TransactionBuilder.build_and_sign TransactionBuilder.build
  rw [if_neg h]
  refine ⟨_, rfl, rfl, ?_⟩
  cases signers with
  | none => simp [Transaction.sign]
  | some ss =>
    by_cases hmem : b.payer ∈ ss
    · simp [Transaction.sign, if_pos hmem, hmem]
    · simp [Transaction.sign, if_neg hmem]

theorem buildAndSign_includes_payer_witness :
    ∃ tx : RJup.Transaction,
      ((RJup.TransactionBuilder.init ⟨⟨⟨⟨7⟩⟩⟩⟩ ⟨List.replicate 64 1⟩).add_transfer
          ⟨List.replicate 32 2⟩ ⟨List.replicate 32 3⟩ 5
        |>.build_and_sign (some []) none).1 = .ok tx ∧
      tx.signers = [⟨List.replicate 64 1⟩] ∧
      (⟨List.replicate 64 1⟩ : RJup.Keypair) ∈ tx.signers := by
  have h := buildAndSign_includes_payer
    ((RJup.TransactionBuilder.init ⟨⟨⟨⟨7⟩⟩⟩⟩ ⟨List.replicate 64 1⟩).add_transfer
      ⟨List.replicate 32 2⟩ ⟨List.replicate 32 3⟩ 5)
    (some []) none (by decide)
  simpa using h

/-- C2: `build` fails with `EmptyTransaction` exactly when the builder
holds no instructions; after a single `addTransfer` (or a single
`addInstruction`) on a fresh builder, `build` succeeds and the message
references exactly one instruction. -/
theorem build_empty_iff_and_one_instruction (b : TransactionBuilder)
    (recent_blockhash : Option Hash) (client : Client) (payer : Keypair)
    (from_pubkey to_pubkey : Pubkey) (lamports : Nat) (instr : Instruction) :
    ((b.build recent_blockhash).1 = .error .emptyTransaction ↔ b.instructions = []) ∧
    (∃ tx : Transaction,
      (((TransactionBuilder.init client payer).add_transfer from_pubkey to_pubkey
          lamports).build recent_blockhash).1 = .ok tx ∧
      tx.message.instructions.length = 1) ∧
    (∃ tx : Transaction,
      (((TransactionBuilder.init client payer).add_instruction instr).build
          recent_blockhash).1 = .ok tx ∧
      tx.message.instructions.length = 1) := by
  refine ⟨?_, ?_, ?_⟩
  · constructor
    · intro hfail
      by_contra hne
      unfold TransactionBuilder.build at hfail
      rw [if_neg hne] at hfail
      simp at hfail
    · intro hnil
      unfold TransactionBuilder.build
      rw [if_pos hnil]
  · unfold TransactionBuilder.build
    rw [if_neg (by simp [TransactionBuilder.init, TransactionBuilder.add_transfer,
      TransactionBuilder.add_instruction])]
    exact ⟨_, rfl, rfl⟩
  · unfold TransactionBuilder.build
    rw [if_neg (by simp [TransactionBuilder.init, TransactionBuilder.add_instruction])]
    exact ⟨_, rfl, rfl⟩

theorem build_empty_iff_and_one_instruction_witness :
    (((RJup.TransactionBuilder.init ⟨⟨⟨⟨7⟩⟩⟩⟩ ⟨List.replicate 64 1⟩).build none).1
        = .error .emptyTransaction ↔
      (RJup.TransactionBuilder.init ⟨⟨⟨⟨7⟩⟩⟩⟩ ⟨List.replicate 64 1⟩).instructions = []) ∧
    (∃ tx : RJup.Transaction,
      (((RJup.TransactionBuilder.init ⟨⟨⟨⟨7⟩⟩⟩⟩ ⟨List.replicate 64 1⟩).add_transfer
          ⟨List.replicate 32 2⟩ ⟨List.replicate 32 3⟩ 5).build none).1 = .ok tx ∧
      tx.message.instructions.length = 1) ∧
    (∃ tx : RJup.Transaction,
      (((RJup.TransactionBuilder.init ⟨⟨⟨⟨7⟩⟩⟩⟩ ⟨List.replicate 64 1⟩).add_instruction
          ⟨⟨List.replicate 32 4⟩, [], []⟩).build none).1 = .ok tx ∧
      tx.message.instructions.length = 1) :=
  build_empty_iff_and_one_instruction
    (RJup.TransactionBuilder.init ⟨⟨⟨⟨7⟩⟩⟩⟩ ⟨List.replicate 64 1⟩) none
    ⟨⟨⟨⟨7⟩⟩⟩⟩ ⟨List.replicate 64 1⟩ ⟨List.replicate 32 2⟩ ⟨List.replicate 32 3⟩ 5
    ⟨⟨List.replicate 32 4⟩, [], []⟩

/-- C3: constructing the key manager without a pre-built keypair fails
with `MissingCredential` when neither the argument nor the environment
variable supplies a secret, fails with `InvalidKeyFormat` when the text
does not base-58 decode or the decoded bytes are not the expected
64-byte secret, succeeds otherwise, and the two failure kinds are
distinct values of the error type. -/
theorem initKeypairManager_error_classification :
    (∀ env : Option (List Nat), (env = none ∨ env = some []) →
        initKeypairManager none none env = .error .missingCredential) ∧
    (∀ (pk : List Nat) (env : Option (List Nat)),
        (b58decode pk = none ∨ ∃ s, b58decode pk = some s ∧ s.length ≠ 64) →
        initKeypairManager (some pk) none env = .error .invalidKeyFormat) ∧
    (∀ (pk s : List Nat) (env : Option (List Nat)),
        b58decode pk = some s → s.length = 64 →
        initKeypairManager (some pk) none env = .ok ⟨⟨s⟩⟩) ∧
    KMError.missingCredential ≠ KMError.invalidKeyFormat := by
  refine ⟨?_, ?_, ?_, by decide⟩
  · rintro env (rfl | rfl)
    · rfl
    · rfl
  · rintro pk env (hdec | ⟨s, hdec, hlen⟩)
    · simp [initKeypairManager, load_keypair, hdec, Except.map]
    · simp [initKeypairManager, load_keypair, hdec, Keypair.from_bytes, hlen, Except.map]
  · intro pk s env hdec hlen
    simp [initKeypairManager, load_keypair, hdec, Keypair.from_bytes, hlen, Except.map]

theorem initKeypairManager_error_classification_witness :
    initKeypairManager none none none = .error .missingCredential ∧
    initKeypairManager none none (some []) = .error .missingCredential ∧
    initKeypairManager (some [48]) none none = .error .invalidKeyFormat ∧
    initKeypairManager (some [50]) none none = .error .invalidKeyFormat ∧
    initKeypairManager (some (b58encode (List.replicate 64 3))) none none
      = .ok ⟨⟨List.replicate 64 3⟩⟩ ∧
    KMError.missingCredential ≠ KMError.invalidKeyFormat := by
  obtain ⟨h1, h2, h3, h4⟩ := initKeypairManager_error_classification
  exact ⟨h1 none (Or.inl rfl), h1 (some []) (Or.inr rfl),
    h2 [48] none (Or.inl (by decide)),
    h2 [50] none (Or.inr ⟨[1], by decide, by decide⟩),
    h3 (b58encode (List.replicate 64 3)) (List.replicate 64 3) none
      (b58decode_b58encode (List.replicate 64 3) (by decide)) (by decide),
    h4⟩

/-- C4: the signature-verification entry point raises `Unimplemented`
on every input and never produces a boolean, so no always-valid
placeholder result can be observed. -/
theorem verify_signature_always_unimplemented (pubkey : Pubkey)
    (message signature : List Nat) :
    KeypairManager.verify_signature pubkey message signature
      = .error .unimplemented ∧
    ∀ result : Bool,
      KeypairManager.verify_signature pubkey message signature ≠ .ok result := by
  exact ⟨rfl, fun result h => by simp [KeypairManager.verify_signature] at h⟩

/-- C5: for every valid 64-byte secret, loading the base-58 export of
that secret (`get_private_key_base58`) reproduces an identity whose
public identifier is the one derived directly from the secret bytes:
`load` is a left inverse of `exportSecretText` up to public identity. -/
theorem load_left_inverse_of_export (secret : List Nat) (env : Option (List Nat))
    (hlen : secret.length = 64) (hlt : ∀ x ∈ secret, x < 256) :
    ∃ km : KeypairManager,
      initKeypairManager
          (some (KeypairManager.get_private_key_base58 ⟨⟨secret⟩⟩)) none env
        = .ok km ∧
      km.keypair.pubkey = Keypair.pubkey ⟨secret⟩ := by
  refine ⟨⟨⟨secret⟩⟩, ?_, rfl⟩
  have hdec : b58decode (b58encode secret) = some secret :=
    b58decode_b58encode secret hlt
  simp [initKeypairManager, load_keypair, KeypairManager.get_private_key_base58,
    Keypair.to_bytes, hdec, Keypair.from_bytes, hlen, Except.map]

theorem load_left_inverse_of_export_witness :
    ∃ km : RJup.KeypairManager,
      RJup.initKeypairManager
          (some (RJup.KeypairManager.get_private_key_base58 ⟨⟨List.replicate 64 5⟩⟩))
          none none
        = .ok km ∧
      km.keypair.pubkey = RJup.Keypair.pubkey ⟨List.replicate 64 5⟩ :=
  load_left_inverse_of_export (List.replicate 64 5) none (by decide) (by decide)

/-- C9: a pre-built keypair handed to the constructor is adopted as the
identity unchanged, and both the `private_key` argument (malformed or
not) and the environment variable are ignored: the call never fails and
the resulting identity depends on neither. -/
theorem initKeypairManager_prefers_keypair (private_key : Option (List Nat))
    (kp : Keypair) (env : Option (List Nat)) :
    initKeypairManager private_key (some kp) env = .ok ⟨kp⟩ := by
  cases private_key <;> rfl

/-- C7: `isValidTokenAccount` is a total boolean function of the
lookup's outcome: `false` when the lookup raises, `false` when the
account is absent, `false` when the owner is not the token program, and
`true` exactly when the account exists and is owned by the token
program. -/
theorem verify_token_account_classification (get_account_info : AccountLookup)
    (account : Pubkey) :
    (∀ e : String, get_account_info account = .error e →
        verify_token_account get_account_info account = false) ∧
    (get_account_info account = .ok none →
        verify_token_account get_account_info account = false) ∧
    (∀ info : AccountInfo, get_account_info account = .ok (some info) →
        info.owner ≠ TOKEN_PROGRAM_ID →
        verify_token_account get_account_info account = false) ∧
    (verify_token_account get_account_info account = true ↔
      ∃ info : AccountInfo, get_account_info account = .ok (some info) ∧
        info.owner = TOKEN_PROGRAM_ID) := by
  refine ⟨?_, ?_, ?_, ?_⟩
  · intro e he
    simp [verify_token_account, he]
  · intro hnone
    simp [verify_token_account, hnone]
  · intro info hsome howner
    simp [verify_token_account, hsome, howner]
  · constructor
    · intro htrue
      unfold verify_token_account at htrue
      rcases hlook : get_account_info account with e | v
      · rw [hlook] at htrue; simp at htrue
      · rcases v with _ | info
        · rw [hlook] at htrue; simp at htrue
        · rw [hlook] at htrue
          simp only [decide_eq_true_eq] at htrue
          exact ⟨info, rfl, htrue⟩
    · rintro ⟨info, hsome, howner⟩
      simp [verify_token_account, hsome, howner]

theorem verify_token_account_classification_witness :
    verify_token_account (fun _ => .error "connection refused") ⟨[1]⟩ = false ∧
    verify_token_account (fun _ => .ok none) ⟨[1]⟩ = false ∧
    verify_token_account (fun _ => .ok (some ⟨⟨[9]⟩, 0, false⟩)) ⟨[1]⟩ = false ∧
    verify_token_account (fun _ => .ok (some ⟨TOKEN_PROGRAM_ID, 0, false⟩)) ⟨[1]⟩
      = true := by
  refine ⟨?_, ?_, ?_, ?_⟩
  · exact (verify_token_account_classification (fun _ => .error "connection refused")
      ⟨[1]⟩).1 "connection refused" rfl
  · exact (verify_token_account_classification (fun _ => .ok none) ⟨[1]⟩).2.1 rfl
  · exact (verify_token_account_classification (fun _ => .ok (some ⟨⟨[9]⟩, 0, false⟩))
      ⟨[1]⟩).2.2.1 ⟨⟨[9]⟩, 0, false⟩ rfl (by decide)
  · exact (verify_token_account_classification
      (fun _ => .ok (some ⟨TOKEN_PROGRAM_ID, 0, false⟩)) ⟨[1]⟩).2.2.2.mpr
      ⟨⟨TOKEN_PROGRAM_ID, 0, false⟩, rfl, rfl⟩

/-- C8: `confirmTransaction` consumes exactly one response from the
node — the remainder of the pending queue is returned untouched, so no
second query or retry happens — and reports `true` exactly when the
node-reported status of the queried signature carries no error
marker. -/
theorem confirm_transaction_single_query (response : ConfirmResp)
    (rest : List ConfirmResp) (signature : Nat) (commitment : String)
    (s : TransactionStatus) (tl : List TransactionStatus)
    (h : response.value = s :: tl) :
    confirm_transaction (response :: rest) signature commitment
      = some (s.status.isNone, rest) ∧
    (confirm_transaction (response :: rest) signature commitment
        = some (true, rest) ↔ s.status = none) := by
  have h1 : confirm_transaction (response :: rest) signature commitment
      = some (s.status.isNone, rest) := by
    show (match response.value with
      | [] => none
      | s :: _ => some (s.status.isNone, rest)) = some (s.status.isNone, rest)
    rw [h]
  refine ⟨h1, ?_⟩
  rw [h1]
  cases s.status <;> simp

theorem confirm_transaction_single_query_witness :
    RJup.confirm_transaction [⟨[⟨none⟩]⟩, ⟨[⟨some "late"⟩]⟩] 42 "confirmed"
      = some (true, [⟨[⟨some "late"⟩]⟩]) ∧
    (RJup.confirm_transaction [⟨[⟨none⟩]⟩, ⟨[⟨some "late"⟩]⟩] 42 "confirmed"
        = some (true, [⟨[⟨some "late"⟩]⟩]) ↔
      (⟨none⟩ : RJup.TransactionStatus).status = none) := by
  have h := confirm_transaction_single_query ⟨[⟨none⟩]⟩ [⟨[⟨some "late"⟩]⟩]
    42 "confirmed" ⟨none⟩ [] rfl
  simpa using h

/-- C10: `build` and `buildAndSign` leave the builder unchanged —
client, payer and instruction list are those of the pre-state whether
the call succeeds or fails with `EmptyTransaction` — so the builder can
be rebuilt repeatedly and instructions can still be appended after a
build. -/
theorem build_preserves_builder_state (b : TransactionBuilder)
    (recent_blockhash : Option Hash) (signers : Option (List Keypair))
    (instr : Instruction) :
    (b.build recent_blockhash).2 = b ∧
    (b.build_and_sign signers recent_blockhash).2 = b ∧
    (b.build recent_blockhash).2.build recent_blockhash = b.build recent_blockhash ∧
    ((b.build recent_blockhash).2.add_instruction instr).instructions
      = b.instructions ++ [instr] := by
  have hbuild : (b.build recent_blockhash).2 = b := by
    unfold TransactionBuilder.build
    by_cases hnil : b.instructions = []
    · rw [if_pos hnil]
    · rw [if_neg hnil]
  refine ⟨hbuild, ?_, by rw [hbuild], by rw [hbuild]; rfl⟩
  unfold TransactionBuilder.build_and_sign
  rcases hb : b.build recent_blockhash with ⟨res, b'⟩
  have hb' : b' = b := by
    have := hbuild
    rw [hb] at this
    exact this
  cases res <;> simp [hb']

end RJup
